import Mathlib

/-!
Verification of the request-to-query translation and response-aggregation
engine of the http2ldap gateway (src/http2ldap.js).

JavaScript strings are modelled as Lean `String`s (sequences of characters);
the JS string operations used by the source (`substring(1)`, `split(sep)` with
a one-character separator, `join(sep)`, string concatenation, number-to-string
coercion) are given explicit definitions over the character list.  The
ECMAScript builtin `decodeURI` is modelled by `decodeChars` below, following
the Decode abstract operation (percent sequences are decoded as strict UTF-8;
a malformed sequence raises a URIError, modelled as `none`; percent-escapes of
the URI reserved characters are kept escaped).

The Express request object is modelled by `Request` (path plus the two query
parameters the handler reads); the ldapjs search result stream is modelled as
a list of `LdapEvent`s, and the Express response object as a write-once cell:
the first completed send commits the HTTP response, later sends cannot alter
what was already put on the wire.
-/

/-- JS `s.split(sep)` for a one-character separator, over character lists:
always returns at least one group, the separator is consumed. -/
def splitOnChar (sep : Char) : List Char → List (List Char)
  | [] => [[]]
  | c :: rest =>
    if c = sep then [] :: splitOnChar sep rest
    else
      match splitOnChar sep rest with
      | [] => [[c]]
      | g :: gs => (c :: g) :: gs

/-- JS `array.join(sep)` for a one-character separator, over character lists. -/
def joinChar (sep : Char) : List (List Char) → List Char
  | [] => []
  | [g] => g
  | g :: gs => g ++ sep :: joinChar sep gs

/-- Line 63: `req.path.substring(1).split("/").reverse().join(",")`. -/
def searchBase (path : String) : String :=
  ⟨joinChar ',' ((splitOnChar '/' (path.data.drop 1)).reverse)⟩

/-- Hexadecimal digit value, as accepted by the ECMAScript Decode operation
(digits, upper-case and lower-case letters, by code point). -/
def hexVal (c : Char) : Option Nat :=
  let n := c.toNat
  if 0x30 ≤ n ∧ n ≤ 0x39 then some (n - 0x30)
  else if 0x41 ≤ n ∧ n ≤ 0x46 then some (n - 0x41 + 10)
  else if 0x61 ≤ n ∧ n ≤ 0x66 then some (n - 0x61 + 10)
  else none

/-- The characters `decodeURI` leaves percent-escaped: uriReserved plus '#'. -/
def uriPreserved (c : Char) : Bool :=
  c = ';' || c = '/' || c = '?' || c = ':' || c = '@' || c = '&' ||
  c = '=' || c = '+' || c = '$' || c = ',' || c = '#'

/-- A strict UTF-8 continuation byte in the range allowed after the given
leading byte at the given position (the restricted window only applies to the
first continuation byte). -/
def contOk (lead : Nat) (first : Bool) (b : Nat) : Bool :=
  0x80 ≤ b && b ≤ 0xBF &&
  (!first || (
    (lead ≠ 0xE0 || 0xA0 ≤ b) &&
    (lead ≠ 0xED || b ≤ 0x9F) &&
    (lead ≠ 0xF0 || 0x90 ≤ b) &&
    (lead ≠ 0xF4 || b ≤ 0x8F)))

/-- The ECMAScript Decode abstract operation with the `decodeURI` preserve
set, over character lists; `none` models a thrown URIError. -/
def decodeChars : List Char → Option (List Char)
  | [] => some []
  | '%' :: h1 :: h2 :: rest =>
    match hexVal h1, hexVal h2 with
    | some d1, some d2 =>
      let b := 16 * d1 + d2
      if b < 0x80 then
        let c := Char.ofNat b
        (decodeChars rest).map fun tail =>
          if uriPreserved c then '%' :: h1 :: h2 :: tail else c :: tail
      else if 0xC2 ≤ b ∧ b ≤ 0xDF then
        match rest with
        | '%' :: g1 :: g2 :: rest2 =>
          match hexVal g1, hexVal g2 with
          | some e1, some e2 =>
            let b2 := 16 * e1 + e2
            if contOk b true b2 then
              (decodeChars rest2).map fun tail =>
                Char.ofNat ((b - 0xC0) * 0x40 + (b2 - 0x80)) :: tail
            else none
          | _, _ => none
        | _ => none
      else if 0xE0 ≤ b ∧ b ≤ 0xEF then
        match rest with
        | '%' :: g1 :: g2 :: '%' :: f1 :: f2 :: rest3 =>
          match hexVal g1, hexVal g2, hexVal f1, hexVal f2 with
          | some e1, some e2, some e3, some e4 =>
            let b2 := 16 * e1 + e2
            let b3 := 16 * e3 + e4
            if contOk b true b2 && contOk b false b3 then
              (decodeChars rest3).map fun tail =>
                Char.ofNat ((b - 0xE0) * 0x1000 + (b2 - 0x80) * 0x40 + (b3 - 0x80)) :: tail
            else none
          | _, _, _, _ => none
        | _ => none
      else if 0xF0 ≤ b ∧ b ≤ 0xF4 then
        match rest with
        | '%' :: g1 :: g2 :: '%' :: f1 :: f2 :: '%' :: k1 :: k2 :: rest4 =>
          match hexVal g1, hexVal g2, hexVal f1, hexVal f2, hexVal k1, hexVal k2 with
          | some e1, some e2, some e3, some e4, some e5, some e6 =>
            let b2 := 16 * e1 + e2
            let b3 := 16 * e3 + e4
            let b4 := 16 * e5 + e6
            if contOk b true b2 && contOk b false b3 && contOk b false b4 then
              (decodeChars rest4).map fun tail =>
                Char.ofNat ((b - 0xF0) * 0x40000 + (b2 - 0x80) * 0x1000 +
                  (b3 - 0x80) * 0x40 + (b4 - 0x80)) :: tail
            else none
          | _, _, _, _, _, _ => none
        | _ => none
      else none
    | _, _ => none
  | '%' :: _rest => none
  | c :: rest => (decodeChars rest).map fun tail => c :: tail

/-- JS `decodeURI` on a string; `none` models a thrown URIError. -/
def decodeURI (s : String) : Option String :=
  (decodeChars s.data).map fun cs => ⟨cs⟩

/-- JS ToString coercion of a possibly-undefined string value, as performed
on `req.query["filter"]` by `decodeURI` at line 65: `undefined` becomes the
literal string "undefined". -/
def jsToString : Option String → String
  | none => "undefined"
  | some s => s

/-- The part of the Express request object read by the handler: `req.path`,
`req.query["filter"]` and `req.query["scope"]` (absent parameters are
`undefined`, modelled as `none`). -/
structure Request where
  path : String
  queryFilter : Option String
  queryScope : Option String

/-- Lines 67-71: `scope` starts as "base", is set to "one" when the `scope`
query parameter equals "1" and to "sub" when it equals "2". -/
def scopeOf (scopeNumber : Option String) : String :=
  let scope := "base"
  let scope := if scopeNumber = some "1" then "one" else scope
  let scope := if scopeNumber = some "2" then "sub" else scope
  scope

/-- The options object of an ldapjs search; a `none` field is an absent key,
for which ldapjs substitutes its library default. -/
structure SearchOptions where
  filter : Option String
  scope : Option String
  attributes : Option (List String)
deriving DecidableEq, Repr

/-- The literal `{}` passed as the options argument at line 81. -/
def emptyOptions : SearchOptions := ⟨none, none, none⟩

/-- Lines 65-79: the `opts` object the handler builds from the query
parameters (filter URI-decoded, scope translated, `attributes: []`);
`none` models the URIError thrown by `decodeURI` at line 65. -/
def builtOpts (req : Request) : Option SearchOptions :=
  (decodeURI (jsToString req.queryFilter)).map
    fun filter => ⟨some filter, some (scopeOf req.queryScope), some []⟩

/-- A search operation as issued on the ldap client: base and options. -/
structure SearchRequest where
  base : String
  options : SearchOptions
deriving DecidableEq, Repr

/-- JS errors the handler can throw before reaching `client.search`. -/
inductive JsError
  | uriError
deriving DecidableEq, Repr

/-- Lines 60-81 of the handler up to the point the search is issued: the
search base is computed from the path, `opts` is built (throwing a URIError
on a malformed `filter`), and then `client.search(searchBase, {}, ...)` is
called — with the literal `{}`, not `opts`. -/
def handlerSearch (req : Request) : Except JsError SearchRequest :=
  match builtOpts req with
  | none => .error .uriError
  | some _opts => .ok ⟨searchBase req.path, emptyOptions⟩

/-- The searches the handler issues on the ldap client for one request. -/
def issuedSearches (req : Request) : List SearchRequest :=
  match handlerSearch req with
  | .ok s => [s]
  | .error _ => []

/-- One attribute of a raw directory entry as delivered by ldapjs:
`{"type": attribute name, "values": array of values}`. -/
structure RawAttribute where
  type : String
  values : List String
deriving DecidableEq, Repr

/-- A raw directory entry (`entry.pojo`): the dn (`objectName`) and the
ordered attribute list. -/
structure RawEntry where
  objectName : String
  attributes : List RawAttribute
deriving DecidableEq, Repr

/-- A flattened entry `{dn: dn, attributes: {attribute name: [values]}}`.
The JS object literal is modelled as an insertion-ordered association list
with unique keys, matching JS object key semantics. -/
structure FlatEntry where
  dn : String
  attributes : List (String × List String)
deriving DecidableEq, Repr

/-- JS object property assignment `obj[k] = v`: an existing key keeps its
position and gets the new value, a new key is appended. -/
def jsAssign (m : List (String × List String)) (k : String) (v : List String) :
    List (String × List String) :=
  if m.any (fun p => p.1 = k) then
    m.map (fun p => if p.1 = k then (k, v) else p)
  else m ++ [(k, v)]

/-- Lines 99-105: build `resp` from `entry.pojo`, assigning
`resp.attributes[attr.type] = attr.values` for each attribute in order. -/
def flattenEntry (e : RawEntry) : FlatEntry :=
  { dn := e.objectName
    attributes := e.attributes.foldl (fun m a => jsAssign m a.type a.values) [] }

/-- The events the handler subscribes to on the ldapjs result stream.  An
error event carries whether it is an `ldap.NoSuchObjectError` and its
message; an end event carries `result.status`. -/
inductive LdapEvent
  | searchEntry (entry : RawEntry)
  | endEvent (status : Nat)
  | errorEvent (noSuchObject : Bool) (message : String)
  | searchReference (uris : List String)
deriving DecidableEq, Repr

/-- The body of an HTTP response produced by the handler: either the JSON
array of flattened entries or a `{message: ...}` object. -/
inductive Body
  | entries (es : List FlatEntry)
  | message (msg : String)
deriving DecidableEq, Repr

/-- An HTTP response as committed on the wire: status code and JSON body. -/
structure HttpResponse where
  status : Nat
  body : Body
deriving DecidableEq, Repr

/-- The per-request handler state while the result stream is consumed: the
`entries` accumulator (line 90) and the response already committed on the
Express `res` object, if any.  HTTP allows a single response per request:
the first completed send commits it, and a later send on the same `res`
cannot alter or replace what was already sent. -/
structure HandlerState where
  entries : List FlatEntry
  committed : Option HttpResponse
deriving DecidableEq, Repr

/-- Send a response on the write-once `res` object: a no-op when a response
was already committed. -/
def respond (st : HandlerState) (r : HttpResponse) : HandlerState :=
  match st.committed with
  | some _ => st
  | none => { st with committed := some r }

/-- Whether an event triggers a response send (end, error and referral
handlers all send; the searchEntry handler only accumulates). -/
def isTerminal : LdapEvent → Bool
  | .searchEntry _ => false
  | _ => true

/-- Lines 92-143: the four event handlers.  `searchEntry` flattens and pushes
the entry; `end` sends 400 with the status message when `result.status` is
nonzero, else sends the entry array (`res.json` defaults to status 200);
`error` sends 400 not-found for `NoSuchObjectError` and 500 with the error
message otherwise; `searchReference` sends 400 referrals-not-supported. -/
def step (sb : String) (st : HandlerState) : LdapEvent → HandlerState
  | .searchEntry e => { st with entries := st.entries ++ [flattenEntry e] }
  | .endEvent status =>
    if status ≠ 0 then
      respond st ⟨400, .message ("ldap status result was: " ++ toString status)⟩
    else
      respond st ⟨200, .entries st.entries⟩
  | .errorEvent noSuchObject msg =>
    if noSuchObject then
      respond st ⟨400, .message ("not found: " ++ sb)⟩
    else
      respond st ⟨500, .message msg⟩
  | .searchReference _ =>
    respond st ⟨400, .message "referrals not supported"⟩

/-- Consume the result stream of one search from the initial state
(`entries = []`, nothing committed), with search base `sb`. -/
def processEvents (sb : String) (events : List LdapEvent) : HandlerState :=
  events.foldl (step sb) ⟨[], none⟩

/-- The values of the last attribute named `k` in a raw attribute list
(specification vocabulary for the flattening claims). -/
def lastValues (k : String) : List RawAttribute → Option (List String)
  | [] => none
  | a :: rest =>
    match lastValues k rest with
    | some v => some v
    | none => if a.type = k then some a.values else none

/-- JS property read `obj[k]` on the association-list model of an object:
the value at the first (with unique keys, the only) matching key. -/
def getValues (k : String) : List (String × List String) → Option (List String)
  | [] => none
  | (k1, v) :: rest => if k1 = k then some v else getValues k rest

/-- The HTTP response the core commits for one request, given the event
stream of its search: `none` when the handler threw before issuing the
search (no callback is ever registered), or when no terminal event ever
arrives. -/
def coreResponse (req : Request) (events : List LdapEvent) : Option HttpResponse :=
  match handlerSearch req with
  | .error _ => none
  | .ok s => (processEvents s.base events).committed

/- ------------------------------------------------------------------ -/
/- Helper lemmas                                                       -/
/- ------------------------------------------------------------------ -/

theorem splitOnChar_sepFree (sep : Char) (g : List Char) (hg : sep ∉ g) :
    splitOnChar sep g = [g] := by
  induction g with
  | nil => rfl
  | cons c rest ih =>
    simp only [List.mem_cons, not_or] at hg
    have hc : ¬ c = sep := fun h => hg.1 h.symm
    simp [splitOnChar, hc, ih hg.2]

theorem splitOnChar_append (sep : Char) (g t : List Char) (hg : sep ∉ g) :
    splitOnChar sep (g ++ sep :: t) = g :: splitOnChar sep t := by
  induction g with
  | nil => simp [splitOnChar]
  | cons c rest ih =>
    simp only [List.mem_cons, not_or] at hg
    have hc : ¬ c = sep := fun h => hg.1 h.symm
    simp [splitOnChar, hc, ih hg.2]

theorem splitOnChar_joinChar (sep : Char) (segs : List (List Char)) (hne : segs ≠ [])
    (hfree : ∀ g ∈ segs, sep ∉ g) :
    splitOnChar sep (joinChar sep segs) = segs := by
  induction segs with
  | nil => exact absurd rfl hne
  | cons g gs ih =>
    cases gs with
    | nil => exact splitOnChar_sepFree sep g (hfree g (by simp))
    | cons g2 gs2 =>
      show splitOnChar sep (g ++ sep :: joinChar sep (g2 :: gs2)) = g :: g2 :: gs2
      rw [splitOnChar_append sep g _ (hfree g (by simp))]
      rw [ih (List.cons_ne_nil g2 gs2) (fun x hx => hfree x (List.mem_cons_of_mem g hx))]

/- ------------------------------------------------------------------ -/
/- C2: the search base is the reversed path, comma-joined              -/
/- ------------------------------------------------------------------ -/

/-- C2: for every request path of the form `/attr1=val1/.../attrN=valN`
(a leading slash followed by slash-free segments joined by `/`), the search
base passed to the directory search is the segments in reversed order
joined with `,`; the empty path `/` yields the empty string. -/
theorem searchBase_spec :
    (∀ segs : List (List Char), segs ≠ [] → (∀ g ∈ segs, '/' ∉ g) →
      searchBase ⟨'/' :: joinChar '/' segs⟩ = ⟨joinChar ',' segs.reverse⟩)
    ∧ searchBase "/" = "" := by
  constructor
  · intro segs hne hfree
    show (⟨joinChar ',' ((splitOnChar '/' (('/' :: joinChar '/' segs).drop 1)).reverse)⟩ : String)
      = ⟨joinChar ',' segs.reverse⟩
    rw [List.drop_one, List.tail_cons, splitOnChar_joinChar '/' segs hne hfree]
  · rfl

/-- Witness for C2 at the concrete path of the spec example. -/
theorem searchBase_spec_witness :
    searchBase "/dc=com/dc=example/ou=people" = "ou=people,dc=example,dc=com" := by
  have h := searchBase_spec.1 ["dc=com".data, "dc=example".data, "ou=people".data]
    (by decide) (by decide)
  exact h

/- ------------------------------------------------------------------ -/
/- C5: flattening an entry                                             -/
/- ------------------------------------------------------------------ -/

theorem mem_keys_jsAssign (m : List (String × List String)) (k0 k : String)
    (v : List String) :
    k ∈ (jsAssign m k0 v).map Prod.fst ↔ k ∈ m.map Prod.fst ∨ k0 = k := by
  unfold jsAssign
  by_cases h : m.any (fun p => p.1 = k0)
  · rw [if_pos h]
    have hkeys : (m.map fun p => if p.1 = k0 then (k0, v) else p).map Prod.fst
        = m.map Prod.fst := by
      rw [List.map_map]
      refine List.map_congr_left fun p _ => ?_
      by_cases hp : p.1 = k0 <;> simp [hp]
    rw [hkeys]
    constructor
    · exact Or.inl
    · rintro (hm | hk)
      · exact hm
      · have hex : ∃ p ∈ m, p.1 = k0 := by
          simpa [List.any_eq_true] using h
        obtain ⟨p, hp, hpk⟩ := hex
        exact List.mem_map.mpr ⟨p, hp, by rw [hpk, hk]⟩
  · rw [if_neg h]
    simp only [List.map_append, List.map_cons, List.map_nil, List.mem_append,
      List.mem_singleton]
    constructor
    · rintro (hm | hk)
      · exact Or.inl hm
      · exact Or.inr hk.symm
    · rintro (hm | hk)
      · exact Or.inl hm
      · exact Or.inr hk.symm

theorem nodup_keys_jsAssign (m : List (String × List String)) (k0 : String)
    (v : List String) (h : (m.map Prod.fst).Nodup) :
    ((jsAssign m k0 v).map Prod.fst).Nodup := by
  unfold jsAssign
  by_cases hany : m.any (fun p => p.1 = k0)
  · rw [if_pos hany]
    have hkeys : (m.map fun p => if p.1 = k0 then (k0, v) else p).map Prod.fst
        = m.map Prod.fst := by
      rw [List.map_map]
      refine List.map_congr_left fun p _ => ?_
      by_cases hp : p.1 = k0 <;> simp [hp]
    rw [hkeys]; exact h
  · rw [if_neg hany]
    simp only [List.any_eq_true, decide_eq_true_eq, not_exists, not_and] at hany
    simp only [List.map_append, List.map_cons, List.map_nil]
    rw [List.nodup_append]
    refine ⟨h, List.nodup_singleton k0, ?_⟩
    intro x hx hx1
    simp only [List.mem_singleton] at hx1
    obtain ⟨p, hp, hpk⟩ := List.mem_map.mp hx
    exact hany p hp (by rw [hpk, hx1])

theorem getValues_map_self (m : List (String × List String)) (k0 : String)
    (v : List String) :
    getValues k0 (m.map fun p => if p.1 = k0 then (k0, v) else p)
      = (getValues k0 m).map fun _ => v := by
  induction m with
  | nil => rfl
  | cons p rest ih =>
    obtain ⟨k1, v1⟩ := p
    rw [List.map_cons]
    by_cases hp : k1 = k0
    · rw [if_pos (show ((k1, v1) : String × List String).1 = k0 from hp)]
      simp [getValues, hp, ih]
    · rw [if_neg (show ¬ ((k1, v1) : String × List String).1 = k0 from hp)]
      simp [getValues, hp, ih]

theorem getValues_map_other (m : List (String × List String)) (k0 k : String)
    (v : List String) (hk : k0 ≠ k) :
    getValues k (m.map fun p => if p.1 = k0 then (k0, v) else p) = getValues k m := by
  induction m with
  | nil => rfl
  | cons p rest ih =>
    obtain ⟨k1, v1⟩ := p
    rw [List.map_cons]
    by_cases hp : k1 = k0
    · rw [if_pos (show ((k1, v1) : String × List String).1 = k0 from hp)]
      have hk1 : ¬ k1 = k := fun h => hk (hp ▸ h)
      have hk0 : ¬ k0 = k := hk
      simp [getValues, hk1, hk0, ih]
    · rw [if_neg (show ¬ ((k1, v1) : String × List String).1 = k0 from hp)]
      simp [getValues, ih]

theorem getValues_append (m1 m2 : List (String × List String)) (k : String) :
    getValues k (m1 ++ m2)
      = match getValues k m1 with
        | some v => some v
        | none => getValues k m2 := by
  induction m1 with
  | nil => rfl
  | cons p rest ih =>
    obtain ⟨k1, v1⟩ := p
    by_cases hp : k1 = k
    · simp [getValues, hp]
    · simp [getValues, hp, ih]

theorem getValues_isSome_of_any (m : List (String × List String)) (k0 : String)
    (h : m.any (fun p => p.1 = k0)) : ∃ w, getValues k0 m = some w := by
  induction m with
  | nil => simp at h
  | cons p rest ih =>
    obtain ⟨k1, v1⟩ := p
    by_cases hp : k1 = k0
    · exact ⟨v1, by simp [getValues, hp]⟩
    · simp only [List.any_cons, Bool.or_eq_true, decide_eq_true_eq] at h
      obtain ⟨w, hw⟩ := ih (by simpa [hp] using h)
      exact ⟨w, by simp [getValues, hp, hw]⟩

theorem getValues_none_of_not_any (m : List (String × List String)) (k0 : String)
    (h : ¬ m.any (fun p => p.1 = k0)) : getValues k0 m = none := by
  induction m with
  | nil => rfl
  | cons p rest ih =>
    obtain ⟨k1, v1⟩ := p
    simp only [List.any_cons, Bool.or_eq_true, decide_eq_true_eq, not_or] at h
    simp [getValues, h.1, ih (by simpa using h.2)]

theorem getValues_jsAssign_self (m : List (String × List String)) (k0 : String)
    (v : List String) : getValues k0 (jsAssign m k0 v) = some v := by
  unfold jsAssign
  by_cases h : m.any (fun p => p.1 = k0)
  · rw [if_pos h, getValues_map_self]
    obtain ⟨w, hw⟩ := getValues_isSome_of_any m k0 h
    rw [hw]; rfl
  · rw [if_neg h, getValues_append, getValues_none_of_not_any m k0 h]
    simp [getValues]

theorem getValues_jsAssign_other (m : List (String × List String)) (k0 k : String)
    (v : List String) (hk : k0 ≠ k) :
    getValues k (jsAssign m k0 v) = getValues k m := by
  unfold jsAssign
  by_cases h : m.any (fun p => p.1 = k0)
  · rw [if_pos h, getValues_map_other m k0 k v hk]
  · rw [if_neg h, getValues_append]
    cases hg : getValues k m with
    | some w => rfl
    | none => simp [getValues, hk]

theorem foldl_jsAssign_mem_keys (as : List RawAttribute) :
    ∀ (m : List (String × List String)) (k : String),
      k ∈ ((as.foldl (fun m a => jsAssign m a.type a.values) m).map Prod.fst)
        ↔ k ∈ m.map Prod.fst ∨ ∃ a ∈ as, a.type = k := by
  induction as with
  | nil => intro m k; simp
  | cons a rest ih =>
    intro m k
    rw [List.foldl_cons, ih, mem_keys_jsAssign]
    constructor
    · rintro ((hm | ha) | hr)
      · exact Or.inl hm
      · exact Or.inr ⟨a, by simp, ha⟩
      · obtain ⟨x, hx, hxk⟩ := hr
        exact Or.inr ⟨x, by simp [hx], hxk⟩
    · rintro (hm | ⟨x, hx, hxk⟩)
      · exact Or.inl (Or.inl hm)
      · rcases List.mem_cons.mp hx with hxa | hxr
        · exact Or.inl (Or.inr (by rw [hxa] at hxk; exact hxk))
        · exact Or.inr ⟨x, hxr, hxk⟩

theorem foldl_jsAssign_nodup (as : List RawAttribute) :
    ∀ m : List (String × List String), (m.map Prod.fst).Nodup →
      (((as.foldl (fun m a => jsAssign m a.type a.values) m)).map Prod.fst).Nodup := by
  induction as with
  | nil => intro m h; exact h
  | cons a rest ih =>
    intro m h
    rw [List.foldl_cons]
    exact ih _ (nodup_keys_jsAssign m a.type a.values h)

theorem foldl_jsAssign_getValues (as : List RawAttribute) :
    ∀ (m : List (String × List String)) (k : String),
      getValues k (as.foldl (fun m a => jsAssign m a.type a.values) m)
        = match lastValues k as with
          | some v => some v
          | none => getValues k m := by
  induction as with
  | nil => intro m k; rfl
  | cons a rest ih =>
    intro m k
    rw [List.foldl_cons, ih]
    cases hl : lastValues k rest with
    | some v => simp [lastValues, hl]
    | none =>
      by_cases hak : a.type = k
      · simp [lastValues, hl, hak, hak ▸ getValues_jsAssign_self m a.type a.values]
      · simp [lastValues, hl, hak, getValues_jsAssign_other m a.type k a.values hak]

/-- C5: flattening a raw entry keeps the dn, produces a map whose keys are
exactly the attribute names of the raw entry, each exactly once (the key
list has no duplicates), and the value sequence stored at a name is the
value sequence of the last raw attribute with that name, unchanged and in
order. -/
theorem flattenEntry_spec (e : RawEntry) :
    (flattenEntry e).dn = e.objectName
    ∧ (((flattenEntry e).attributes.map Prod.fst)).Nodup
    ∧ (∀ k, k ∈ (flattenEntry e).attributes.map Prod.fst
        ↔ ∃ a ∈ e.attributes, a.type = k)
    ∧ (∀ k, getValues k (flattenEntry e).attributes = lastValues k e.attributes) := by
  refine ⟨rfl, ?_, ?_, ?_⟩
  · exact foldl_jsAssign_nodup e.attributes [] (by simp)
  · intro k
    rw [show (flattenEntry e).attributes
        = e.attributes.foldl (fun m a => jsAssign m a.type a.values) [] from rfl]
    rw [foldl_jsAssign_mem_keys e.attributes [] k]
    simp
  · intro k
    rw [show (flattenEntry e).attributes
        = e.attributes.foldl (fun m a => jsAssign m a.type a.values) [] from rfl]
    rw [foldl_jsAssign_getValues e.attributes [] k]
    cases lastValues k e.attributes <;> rfl

/- ------------------------------------------------------------------ -/
/- Event-stream lemmas                                                 -/
/- ------------------------------------------------------------------ -/

theorem foldl_searchEntries (sb : String) (raws : List RawEntry) :
    ∀ st : HandlerState, st.committed = none →
      (raws.map LdapEvent.searchEntry).foldl (step sb) st
        = ⟨st.entries ++ raws.map flattenEntry, none⟩ := by
  induction raws with
  | nil =>
    intro st h
    cases st with
    | mk es c => simp_all
  | cons r rest ih =>
    intro st h
    rw [List.map_cons, List.foldl_cons]
    have hc : (step sb st (.searchEntry r)).committed = none := by
      simp [step, h]
    rw [ih _ hc]
    simp [step]

theorem respond_of_none (st : HandlerState) (r : HttpResponse)
    (h : st.committed = none) : respond st r = ⟨st.entries, some r⟩ := by
  cases st with
  | mk es c => simp_all [respond]

theorem respond_of_some (st : HandlerState) (r0 r : HttpResponse)
    (h : st.committed = some r0) : respond st r = st := by
  cases st with
  | mk es c => simp_all [respond]

theorem step_committed_frozen (sb : String) (st : HandlerState) (r0 : HttpResponse)
    (h : st.committed = some r0) (e : LdapEvent) :
    (step sb st e).committed = some r0 := by
  cases e with
  | searchEntry en => simp [step, h]
  | endEvent status =>
    by_cases hs : status = 0 <;>
      simp [step, hs, respond_of_some st r0 _ h, h]
  | errorEvent nso msg =>
    cases nso <;> simp [step, respond_of_some st r0 _ h, h]
  | searchReference uris => simp [step, respond_of_some st r0 _ h, h]

theorem foldl_committed_frozen (sb : String) (events : List LdapEvent) :
    ∀ (st : HandlerState) (r0 : HttpResponse), st.committed = some r0 →
      (events.foldl (step sb) st).committed = some r0 := by
  induction events with
  | nil => intro st r0 h; exact h
  | cons e rest ih =>
    intro st r0 h
    exact ih _ r0 (step_committed_frozen sb st r0 h e)

theorem foldl_nonterminal (sb : String) (events : List LdapEvent)
    (hev : ∀ e ∈ events, isTerminal e = false) :
    ∀ st : HandlerState, (events.foldl (step sb) st).committed = st.committed := by
  induction events with
  | nil => intro st; rfl
  | cons e rest ih =>
    intro st
    have he : isTerminal e = false := hev e (by simp)
    have hstep : (step sb st e).committed = st.committed := by
      cases e with
      | searchEntry en => rfl
      | endEvent status => simp [isTerminal] at he
      | errorEvent nso msg => simp [isTerminal] at he
      | searchReference uris => simp [isTerminal] at he
    rw [List.foldl_cons, ih (fun x hx => hev x (by simp [hx])), hstep]

theorem step_terminal_some (sb : String) (st : HandlerState) (e : LdapEvent)
    (hn : st.committed = none) (ht : isTerminal e = true) :
    ∃ r, (step sb st e).committed = some r := by
  cases e with
  | searchEntry en => simp [isTerminal] at ht
  | endEvent status =>
    by_cases hs : status = 0
    · exact ⟨⟨200, .entries st.entries⟩,
        by simp [step, hs, respond_of_none st _ hn]⟩
    · exact ⟨⟨400, .message ("ldap status result was: " ++ toString status)⟩,
        by simp [step, hs, respond_of_none st _ hn]⟩
  | errorEvent nso msg =>
    cases nso with
    | false =>
      exact ⟨⟨500, .message msg⟩, by simp [step, respond_of_none st _ hn]⟩
    | true =>
      exact ⟨⟨400, .message ("not found: " ++ sb)⟩,
        by simp [step, respond_of_none st _ hn]⟩
  | searchReference uris =>
    exact ⟨⟨400, .message "referrals not supported"⟩,
      by simp [step, respond_of_none st _ hn]⟩

/- ------------------------------------------------------------------ -/
/- C6: the end event                                                   -/
/- ------------------------------------------------------------------ -/

/-- C6: when the stream delivers entries and then the end event, the
committed HTTP response is 200 with the JSON array of the flattened
entries in arrival order if the carried status is 0, and 400 with the
body message "ldap status result was: " followed by the status
otherwise. -/
theorem end_event_response (sb : String) (raws : List RawEntry) (status : Nat) :
    (processEvents sb (raws.map .searchEntry ++ [.endEvent status])).committed =
      some (if status = 0 then ⟨200, .entries (raws.map flattenEntry)⟩
            else ⟨400, .message ("ldap status result was: " ++ toString status)⟩) := by
  unfold processEvents
  rw [List.foldl_append, foldl_searchEntries sb raws ⟨[], none⟩ rfl]
  by_cases hs : status = 0 <;>
    simp [step, hs, respond_of_none]

/- ------------------------------------------------------------------ -/
/- C7: the error event                                                 -/
/- ------------------------------------------------------------------ -/

/-- C7: when the stream delivers entries and then an error event, the
committed HTTP response is 400 with body message "not found: " followed by
the location derived from the request path when the error is a
NoSuchObjectError, and 500 with the error message otherwise. -/
theorem error_event_response (path : String) (raws : List RawEntry)
    (noSuchObject : Bool) (msg : String) :
    (processEvents (searchBase path)
        (raws.map .searchEntry ++ [.errorEvent noSuchObject msg])).committed =
      some (if noSuchObject then ⟨400, .message ("not found: " ++ searchBase path)⟩
            else ⟨500, .message msg⟩) := by
  unfold processEvents
  rw [List.foldl_append, foldl_searchEntries _ raws ⟨[], none⟩ rfl]
  cases noSuchObject <;> simp [step, respond_of_none]

/- ------------------------------------------------------------------ -/
/- C8: the referral event                                              -/
/- ------------------------------------------------------------------ -/

/-- C8: a referral event commits the HTTP response 400 with body
`{"message": "referrals not supported"}` unconditionally, and that body is
a message object, never an entry array. -/
theorem referral_event_response (sb : String) (raws : List RawEntry)
    (uris : List String) :
    (processEvents sb (raws.map .searchEntry ++ [.searchReference uris])).committed =
      some ⟨400, .message "referrals not supported"⟩
    ∧ ∀ es : List FlatEntry,
        (Body.message "referrals not supported") ≠ Body.entries es := by
  constructor
  · unfold processEvents
    rw [List.foldl_append, foldl_searchEntries sb raws ⟨[], none⟩ rfl]
    simp [step, respond_of_none]
  · intro es h
    cases h

/- ------------------------------------------------------------------ -/
/- C9: first terminal event wins                                       -/
/- ------------------------------------------------------------------ -/

/-- C9: for any event sequence whose first terminal event is `t`, exactly
one HTTP response is committed: the response is already committed right
after `t`, and the events delivered after `t` leave the committed response
unchanged. -/
theorem first_terminal_wins (sb : String) (pre post : List LdapEvent) (t : LdapEvent)
    (hpre : ∀ e ∈ pre, isTerminal e = false) (ht : isTerminal t = true) :
    (processEvents sb (pre ++ t :: post)).committed
      = (processEvents sb (pre ++ [t])).committed
    ∧ ∃ r, (processEvents sb (pre ++ [t])).committed = some r := by
  unfold processEvents
  have hprenone : ((pre.foldl (step sb) ⟨[], none⟩)).committed = none := by
    rw [foldl_nonterminal sb pre hpre ⟨[], none⟩]
  obtain ⟨r, hr⟩ :=
    step_terminal_some sb (pre.foldl (step sb) ⟨[], none⟩) t hprenone ht
  have hone : (((pre ++ [t]).foldl (step sb) ⟨[], none⟩)).committed = some r := by
    rw [List.foldl_append, List.foldl_cons, List.foldl_nil]
    exact hr
  refine ⟨?_, r, hone⟩
  rw [show pre ++ t :: post = (pre ++ [t]) ++ post by simp, List.foldl_append]
  rw [foldl_committed_frozen sb post _ r hone, hone]

/-- Witness for C9: an error event immediately followed by an end event;
the error response is committed and the end event does not change it. -/
theorem first_terminal_wins_witness :
    (processEvents "dc=com" ([] ++ LdapEvent.errorEvent false "boom" :: [.endEvent 0])).committed
      = (processEvents "dc=com" ([] ++ [LdapEvent.errorEvent false "boom"])).committed
    ∧ ∃ r, (processEvents "dc=com" ([] ++ [LdapEvent.errorEvent false "boom"])).committed
        = some r :=
  first_terminal_wins "dc=com" [] [.endEvent 0] (.errorEvent false "boom")
    (by intro e he; cases he) rfl

/- ------------------------------------------------------------------ -/
/- C1 and C3: the computed opts object never reaches the search        -/
/- ------------------------------------------------------------------ -/

/-- C1 (code-bug evidence): for the request GET /dc=com?filter=(cn=x) the
handler computes `opts.filter = "(cn=x)"` (and for an absent parameter the
computed filter is the literal string "undefined"), but the search is
issued with the literal `{}` of line 81, whose filter key is absent — the
decoded filter never reaches the directory search. -/
theorem filter_discarded_at_search :
    builtOpts ⟨"/dc=com", some "(cn=x)", none⟩
      = some ⟨some "(cn=x)", some "base", some []⟩
    ∧ builtOpts ⟨"/dc=com", none, none⟩
      = some ⟨some "undefined", some "base", some []⟩
    ∧ handlerSearch ⟨"/dc=com", some "(cn=x)", none⟩
      = .ok ⟨"dc=com", emptyOptions⟩
    ∧ emptyOptions.filter = none := by
  refine ⟨by decide, by decide, by rfl, rfl⟩

/-- C3 (code-bug evidence): the handler translates the numeric scope code
correctly into the scope string ("0" and any other or absent value to
"base", "1" to "one", "2" to "sub") when building `opts`, but for the
request GET /dc=com?filter=(cn=x)&scope=2 the search is issued with the
literal `{}` of line 81, whose scope key is absent — the translated scope
never reaches the directory search. -/
theorem scope_discarded_at_search :
    scopeOf (some "0") = "base"
    ∧ scopeOf (some "1") = "one"
    ∧ scopeOf (some "2") = "sub"
    ∧ scopeOf none = "base"
    ∧ scopeOf (some "7") = "base"
    ∧ builtOpts ⟨"/dc=com", some "(cn=x)", some "2"⟩
      = some ⟨some "(cn=x)", some "sub", some []⟩
    ∧ handlerSearch ⟨"/dc=com", some "(cn=x)", some "2"⟩
      = .ok ⟨"dc=com", emptyOptions⟩
    ∧ emptyOptions.scope = none := by
  refine ⟨by decide, by decide, by decide, by decide, by decide, by decide, by rfl, rfl⟩

/- ------------------------------------------------------------------ -/
/- C4: one search, no attribute projection                             -/
/- ------------------------------------------------------------------ -/

/-- C4: whenever the handler reaches `client.search` (no URIError was
thrown), exactly one search is issued for the request, and its options
carry no attribute list: no attribute projection is requested, so the
directory returns all attributes of matching entries. -/
theorem search_no_projection (req : Request) (s : SearchRequest)
    (h : handlerSearch req = .ok s) :
    issuedSearches req = [s] ∧ s.options.attributes = none := by
  constructor
  · unfold issuedSearches
    rw [h]
  · have hops : s.options = emptyOptions := by
      unfold handlerSearch at h
      cases hb : builtOpts req with
      | none => rw [hb] at h; cases h
      | some o =>
        rw [hb] at h
        cases h
        rfl
    rw [hops]
    rfl

/-- Witness for C4 at a concrete request. -/
theorem search_no_projection_witness :
    issuedSearches ⟨"/dc=com", some "(uid=a)", none⟩ = [⟨"dc=com", emptyOptions⟩]
    ∧ (SearchRequest.mk "dc=com" emptyOptions).options.attributes = none :=
  search_no_projection ⟨"/dc=com", some "(uid=a)", none⟩ ⟨"dc=com", emptyOptions⟩
    (by rfl)

/- ------------------------------------------------------------------ -/
/- C10: a malformed filter throws before the search                    -/
/- ------------------------------------------------------------------ -/

/-- C10: when `decodeURI` rejects the value of the `filter` query
parameter, the handler throws a URIError at line 65, before
`client.search`: no search is issued and the core commits no HTTP
response, whatever events any stream would carry. -/
theorem malformed_filter_no_search (req : Request)
    (h : decodeURI (jsToString req.queryFilter) = none) :
    handlerSearch req = .error .uriError
    ∧ issuedSearches req = []
    ∧ ∀ events : List LdapEvent, coreResponse req events = none := by
  have hb : builtOpts req = none := by
    unfold builtOpts
    rw [h]
    rfl
  have hh : handlerSearch req = .error .uriError := by
    unfold handlerSearch
    rw [hb]
  refine ⟨hh, ?_, ?_⟩
  · unfold issuedSearches
    rw [hh]
  · intro events
    unfold coreResponse
    rw [hh]

/-- Witness for C10 at the concrete malformed filter value of the claim. -/
theorem malformed_filter_no_search_witness :
    decodeURI (jsToString (some "%E0%A4%A")) = none
    ∧ handlerSearch ⟨"/dc=com", some "%E0%A4%A", none⟩ = .error .uriError
    ∧ issuedSearches ⟨"/dc=com", some "%E0%A4%A", none⟩ = []
    ∧ coreResponse ⟨"/dc=com", some "%E0%A4%A", none⟩ [.endEvent 0] = none := by
  have h : decodeURI (jsToString (some "%E0%A4%A")) = none := by decide
  have m := malformed_filter_no_search ⟨"/dc=com", some "%E0%A4%A", none⟩ h
  exact ⟨h, m.1, m.2.1, m.2.2 [.endEvent 0]⟩
